import Mathlib

/-
Verification development for the TelemetryVisualizer server.

Shallow embedding of src/server/{db.py, seed.py, simulator.py, app.py}.
The SQLite store is modelled as explicit lists of rows; SQL statements
(INSERT OR IGNORE, SELECT ... WHERE ... ORDER BY ... LIMIT) become the
corresponding list operations.  Reading values are floats in the source;
no verified property depends on float arithmetic, so the value payload is
modelled as an opaque integer.  String comparison (used for lexical
ordering of migration filenames and for ORDER BY metric_key under the
SQLite BINARY collation) is code-point lexicographic order, embedded
below as an executable function on the character data of a string.
-/

namespace Telemetry

/-- Code-point lexicographic strict order on character lists, matching the
comparison Python applies to path names and SQLite applies to TEXT. -/
def lexLt : List Char → List Char → Bool
  | [], [] => false
  | [], _ :: _ => true
  | _ :: _, [] => false
  | a :: as, b :: bs => if a < b then true else if b < a then false else lexLt as bs

/-- Strict lexicographic order on strings. -/
def strLt (a b : String) : Bool := lexLt a.data b.data

/-- Reflexive lexicographic order on strings. -/
def strLe (a b : String) : Bool := strLt a b || a == b

/- ----------------------------------------------------------------
   Data model (src/server/models.py and the conceptual schema):
   machines, metrics, readings, latest_readings, schema_migrations.
   ---------------------------------------------------------------- -/

/-- A row of the machines table (models.py Machine). -/
structure Machine where
  machine_id : String
  name : String
  location : Option String
  status : String
deriving DecidableEq

/-- A row of the metrics table (models.py Metric). -/
structure Metric where
  metric_key : String
  display_name : String
  unit : String
deriving DecidableEq

/-- A row of the readings table; also the shape of a latest_readings row
(models.py LatestReading).  The float value is modelled as an opaque Int. -/
structure Reading where
  machine_id : String
  metric_key : String
  ts_ms : Int
  value : Int
deriving DecidableEq

/-- A history response element (models.py ReadingPoint). -/
structure ReadingPoint where
  ts_ms : Int
  value : Int
deriving DecidableEq

/-- The composite primary key of a readings row. -/
def readingKey (r : Reading) : String × String × Int :=
  (r.machine_id, r.metric_key, r.ts_ms)

/-- The database state.  Modelled from the spec for the parts whose DDL is
not under src (the migrations directory): per the spec, the schema consists
of the machines, metrics, readings (unique on the key triple) and
latest_readings tables plus the schema_migrations version log, with no
trigger or any other mechanism populating latest_readings. -/
structure DB where
  machines : List Machine
  metrics : List Metric
  readings : List Reading
  latest_readings : List Reading
  schema_migrations : List String
deriving DecidableEq

/-- INSERT OR IGNORE of one row into a table with a uniqueness constraint
given by the key function: the row is appended unless a row with the same
key is already present, in which case the statement is a silent no-op. -/
def insertOrIgnoreBy {α : Type} {β : Type} [DecidableEq β]
    (key : α → β) (l : List α) (x : α) : List α :=
  if l.any (fun y => decide (key y = key x)) then l else l ++ [x]

/-- executemany of INSERT OR IGNORE over a batch of rows, in batch order. -/
def insertAllBy {α : Type} {β : Type} [DecidableEq β]
    (key : α → β) (l : List α) (rows : List α) : List α :=
  rows.foldl (insertOrIgnoreBy key) l

/-- The single write-path transaction of simulator.py _run_loop:
INSERT OR IGNORE the batch into the readings table.  No other table is
touched by the write path. -/
def appendReadings (db : DB) (rows : List Reading) : DB :=
  { db with readings := insertAllBy readingKey db.readings rows }

/-- SELECT the stored readings row with the given key, if any. -/
def lookupReading (db : DB) (k : String × String × Int) : Option Reading :=
  db.readings.find? (fun r => decide (readingKey r = k))

/-- seed.py: INSERT OR IGNORE the three fixed machines. -/
def seedMachines : List Machine :=
  [ { machine_id := "m-001", name := "Press 1", location := some "Plant A", status := "ok" },
    { machine_id := "m-002", name := "CNC 2", location := some "Plant A", status := "ok" },
    { machine_id := "m-003", name := "Oven 1", location := some "Plant B", status := "ok" } ]

/-- seed.py: INSERT OR IGNORE the three fixed metrics. -/
def seedMetrics : List Metric :=
  [ { metric_key := "temperature", display_name := "Temperature", unit := "C" },
    { metric_key := "pressure", display_name := "Pressure", unit := "kPa" },
    { metric_key := "vibration", display_name := "Vibration", unit := "mm/s" } ]

/-- seed.py seed(conn): one transaction inserting catalog rows. -/
def seed (db : DB) : DB :=
  { db with
    machines := insertAllBy Machine.machine_id db.machines seedMachines,
    metrics := insertAllBy Metric.metric_key db.metrics seedMetrics }

/-- The freshly migrated, empty store. -/
def emptyDB : DB :=
  { machines := [], metrics := [], readings := [], latest_readings := [],
    schema_migrations := [] }

/-- The store right after app.py on_startup: schema established, catalog
seeded, no readings. -/
def initDB : DB := seed emptyDB

/-- SELECT machine_id FROM machines, in table order. -/
def machineIds (db : DB) : List String := db.machines.map Machine.machine_id

/-- SELECT metric_key FROM metrics, in table order. -/
def metricKeys (db : DB) : List String := db.metrics.map Metric.metric_key

/- ----------------------------------------------------------------
   Schema migrations (src/server/db.py apply_migrations).
   The *.sql files themselves are not under src; the model keeps each
   script abstract as its filename plus its text, and records which
   scripts were executed, in execution order.
   ---------------------------------------------------------------- -/

/-- One file of the migrations directory: its filename (the version) and
its SQL text. -/
structure MigFile where
  name : String
  sql : String
deriving DecidableEq

/-- Migration bookkeeping state: the versions recorded in the
schema_migrations table, in insertion order, and the scripts actually
executed against the schema, in execution order. -/
structure MigState where
  applied : List String
  executed : List MigFile
deriving DecidableEq

/-- One iteration of the loop in apply_migrations: skip the file when its
version is in the snapshot of already-recorded versions (taken once,
before the loop), otherwise execute the script and record the version in
one transaction. -/
def applyOne (snapshot : List String) (st : MigState) (f : MigFile) : MigState :=
  if f.name ∈ snapshot then st
  else { applied := st.applied ++ [f.name], executed := st.executed ++ [f] }

/-- db.py apply_migrations: read the recorded versions, list the *.sql
files sorted by filename, and apply each not-yet-recorded one in order. -/
def apply_migrations (files : List MigFile) (st : MigState) : MigState :=
  (files.mergeSort (fun a b => strLe a.name b.name)).foldl (applyOne st.applied) st

/- ----------------------------------------------------------------
   Simulator control state (src/server/simulator.py).
   start/stop/is_running run under one lock, so they are modelled as
   sequential transitions on the controller state.  workers counts the
   live worker threads: start spawns one; the worker exits once the stop
   event is set (its only blocking point is the interruptible sleep),
   and stop joins it with a bounded 2 s grace period.
   ---------------------------------------------------------------- -/

structure SimState where
  running : Bool
  workers : Nat
  stopSignal : Bool
deriving DecidableEq

/-- The state built by TelemetrySimulator.__init__: not running, no
worker thread, stop event unset. -/
def initSim : SimState :=
  { running := false, workers := 0, stopSignal := false }

/-- TelemetrySimulator.is_running. -/
def is_running (s : SimState) : Bool := s.running

/-- TelemetrySimulator.start: no-op when already running, otherwise mark
running, clear the stop event and spawn the worker thread. -/
def start (s : SimState) : SimState :=
  if s.running then s
  else { running := true, workers := s.workers + 1, stopSignal := false }

/-- TelemetrySimulator.stop: no-op (early return) when not running,
otherwise mark stopped, set the stop event and join the worker, which
exits at its next check of the event. -/
def stop (s : SimState) : SimState :=
  if s.running then
    { running := false, workers := s.workers - 1, stopSignal := true }
  else s

/- ----------------------------------------------------------------
   The tick loop (simulator.py _run_loop).
   ---------------------------------------------------------------- -/

/-- The batch of rows assembled by one tick: one row per (machine,
metric) pair of the catalog, all sharing the single timestamp now_ms
taken at the start of the tick.  The float value computed by _value_for
from the wave formulas, the phases and the random noise is abstracted as
an arbitrary function of the pair. -/
def tickRows (machines metrics : List String) (now_ms : Int)
    (valueFor : String → String → Int) : List Reading :=
  machines.flatMap (fun m => metrics.map (fun k =>
    { machine_id := m, metric_key := k, ts_ms := now_ms, value := valueFor m k }))

/-- Outcome of the one store transaction a tick performs. -/
inductive WriteOutcome
  | success
  | fault
deriving DecidableEq

/-- The tick loop run over a schedule of (timestamp, write outcome)
ticks.  On success the batch is committed and the loop proceeds to the
next tick.  On a fault the transaction context manager rolls the batch
back and re-raises; _run_loop has no exception handler, so the exception
propagates and the worker thread terminates: no later tick of the
schedule executes.  Returns the final store, whether the loop crashed,
and how many ticks committed. -/
def runTicks (machines metrics : List String)
    (valueFor : String → String → Int) :
    List (Int × WriteOutcome) → DB → DB × Bool × Nat
  | [], db => (db, false, 0)
  | (ts, WriteOutcome.success) :: rest, db =>
      let db1 := appendReadings db (tickRows machines metrics ts valueFor)
      let res := runTicks machines metrics valueFor rest db1
      (res.1, res.2.1, res.2.2 + 1)
  | (_, WriteOutcome.fault) :: _, db => (db, true, 0)

/- ----------------------------------------------------------------
   Query endpoints (src/server/app.py).
   ---------------------------------------------------------------- -/

/-- app.py get_latest: 404 when the machine_id is not in the machines
table, otherwise the latest_readings rows of that machine ordered by
metric_key ascending. -/
def get_latest (db : DB) (machine_id : String) :
    Except (Nat × String) (List Reading) :=
  if db.machines.any (fun m => decide (m.machine_id = machine_id)) then
    Except.ok
      ((db.latest_readings.filter (fun r => decide (r.machine_id = machine_id))).mergeSort
        (fun a b => strLe a.metric_key b.metric_key))
  else Except.error (404, "Unknown machine_id")

/-- The WHERE clause of get_history on the timestamp: the optional
inclusive bounds. -/
def inBounds (start_ms end_ms : Option Int) (ts : Int) : Bool :=
  (match start_ms with
   | none => true
   | some s => decide (s ≤ ts))
  && (match end_ms with
      | none => true
      | some e => decide (ts ≤ e))

/-- The readings rows matching the WHERE clause of get_history. -/
def historyMatches (db : DB) (machine_id metric_key : String)
    (start_ms end_ms : Option Int) : List Reading :=
  db.readings.filter (fun r =>
    decide (r.machine_id = machine_id) && decide (r.metric_key = metric_key)
      && inBounds start_ms end_ms r.ts_ms)

/-- Descending timestamp comparison of ORDER BY ts_ms DESC. -/
def tsDescLe (a b : Reading) : Bool := decide (b.ts_ms ≤ a.ts_ms)

/-- app.py get_history body: ORDER BY ts_ms DESC LIMIT limit, then the
rows are reversed so the response is ascending. -/
def get_history (db : DB) (machine_id metric_key : String)
    (start_ms end_ms : Option Int) (limit : Nat) : List ReadingPoint :=
  ((((historyMatches db machine_id metric_key start_ms end_ms).mergeSort
      tsDescLe).take limit).reverse).map
    (fun r => { ts_ms := r.ts_ms, value := r.value })

/-- The FastAPI validation of the limit query parameter,
Query(500, ge=1, le=5000): an omitted parameter becomes the default 500;
an out-of-range value is rejected with a 422 validation error before the
handler body (and hence any store query) runs. -/
def validateLimit : Option Int → Except (Nat × String) Int
  | none => Except.ok 500
  | some n =>
      if 1 ≤ n ∧ n ≤ 5000 then Except.ok n
      else Except.error (422, "limit out of range")

/-- The full /history request path: parameter validation, then the
handler. -/
def history_endpoint (db : DB) (machine_id metric_key : String)
    (start_ms end_ms : Option Int) (limitParam : Option Int) :
    Except (Nat × String) (List ReadingPoint) :=
  match validateLimit limitParam with
  | Except.error e => Except.error e
  | Except.ok n =>
      Except.ok (get_history db machine_id metric_key start_ms end_ms n.toNat)

/- ----------------------------------------------------------------
   Reachable stores: the startup state followed by any number of
   committed simulator ticks (the only write path of the system).
   ---------------------------------------------------------------- -/

inductive Reachable : DB → Prop
  | init : Reachable initDB
  | tick (db : DB) (ts : Int) (valueFor : String → String → Int) :
      Reachable db →
      Reachable (appendReadings db (tickRows (machineIds db) (metricKeys db) ts valueFor))

/-- A concrete store: the startup state after one committed tick at
timestamp 1000, every value 7. -/
def demoDB : DB :=
  appendReadings initDB
    (tickRows (machineIds initDB) (metricKeys initDB) 1000 (fun _ _ => 7))

/-- A concrete store with two committed ticks, so every catalog pair has
two readings at timestamps 1000 and 2000. -/
def histDB : DB :=
  appendReadings demoDB
    (tickRows (machineIds demoDB) (metricKeys demoDB) 2000 (fun _ _ => 8))

/-- The reading the demo tick produces for (m-001, temperature). -/
def demoReading : Reading :=
  { machine_id := "m-001", metric_key := "temperature", ts_ms := 1000, value := 7 }

/- ----------------------------------------------------------------
   Order lemmas for the lexical string comparison.
   ---------------------------------------------------------------- -/

lemma lexLt_trans :
    ∀ a b c : List Char, lexLt a b = true → lexLt b c = true → lexLt a c = true := by
  intro a
  induction a with
  | nil =>
    intro b c h1 h2
    cases b with
    | nil => exact absurd h1 (by simp [lexLt])
    | cons y ys =>
      cases c with
      | nil => exact absurd h2 (by simp [lexLt])
      | cons z zs => simp [lexLt]
  | cons x xs ih =>
    intro b c h1 h2
    cases b with
    | nil => exact absurd h1 (by simp [lexLt])
    | cons y ys =>
      cases c with
      | nil => exact absurd h2 (by simp [lexLt])
      | cons z zs =>
        simp only [lexLt] at h1 h2 ⊢
        by_cases hxy : x < y
        · by_cases hyz : y < z
          · simp [lt_trans hxy hyz]
          · rw [if_pos hxy] at h1
            rw [if_neg hyz] at h2
            by_cases hzy : z < y
            · rw [if_pos hzy] at h2; exact absurd h2 (by simp)
            · have hyz2 : y = z := le_antisymm (not_lt.mp hzy) (not_lt.mp hyz)
              subst hyz2
              simp [hxy]
        · rw [if_neg hxy] at h1
          by_cases hyx : y < x
          · rw [if_pos hyx] at h1; exact absurd h1 (by simp)
          · rw [if_neg hyx] at h1
            have hxy2 : x = y := le_antisymm (not_lt.mp hyx) (not_lt.mp hxy)
            subst hxy2
            by_cases hyz : x < z
            · simp [hyz]
            · rw [if_neg hyz] at h2
              by_cases hzy : z < x
              · rw [if_pos hzy] at h2; exact absurd h2 (by simp)
              · rw [if_neg hzy] at h2
                simp only [if_neg hyz, if_neg hzy]
                exact ih ys zs h1 h2

lemma lexLt_trichotomy :
    ∀ a b : List Char, lexLt a b = true ∨ a = b ∨ lexLt b a = true := by
  intro a
  induction a with
  | nil =>
    intro b
    cases b with
    | nil => exact Or.inr (Or.inl rfl)
    | cons y ys => exact Or.inl (by simp [lexLt])
  | cons x xs ih =>
    intro b
    cases b with
    | nil => exact Or.inr (Or.inr (by simp [lexLt]))
    | cons y ys =>
      rcases lt_trichotomy x y with hxy | hxy | hxy
      · exact Or.inl (by simp [lexLt, hxy])
      · subst hxy
        rcases ih ys with h | h | h
        · exact Or.inl (by simp [lexLt, h])
        · exact Or.inr (Or.inl (by rw [h]))
        · exact Or.inr (Or.inr (by simp [lexLt, h]))
      · exact Or.inr (Or.inr (by simp [lexLt, hxy, asymm hxy]))

lemma strLe_trans (a b c : String) (h1 : strLe a b = true) (h2 : strLe b c = true) :
    strLe a c = true := by
  simp only [strLe, Bool.or_eq_true, beq_iff_eq] at h1 h2 ⊢
  rcases h1 with h1 | h1
  · rcases h2 with h2 | h2
    · exact Or.inl (lexLt_trans _ _ _ h1 h2)
    · subst h2; exact Or.inl h1
  · subst h1; exact h2

lemma strLe_total (a b : String) : (strLe a b || strLe b a) = true := by
  simp only [strLe, strLt, Bool.or_eq_true, beq_iff_eq]
  rcases lexLt_trichotomy a.data b.data with h | h | h
  · exact Or.inl (Or.inl h)
  · exact Or.inl (Or.inr (String.ext h))
  · exact Or.inr (Or.inl h)

lemma strLt_of_strLe_of_ne {a b : String} (h : strLe a b = true) (hne : a ≠ b) :
    strLt a b = true := by
  simp only [strLe, Bool.or_eq_true, beq_iff_eq] at h
  rcases h with h | h
  · exact h
  · exact absurd h hne

/- ----------------------------------------------------------------
   Store lemmas: INSERT OR IGNORE semantics.
   ---------------------------------------------------------------- -/

lemma find?_insertAll (k : String × String × Int) :
    ∀ (rows l : List Reading),
      (insertAllBy readingKey l rows).find? (fun r => decide (readingKey r = k))
        = ((l.find? (fun r => decide (readingKey r = k))).or
            (rows.find? (fun r => decide (readingKey r = k)))) := by
  intro rows
  induction rows with
  | nil => intro l; simp [insertAllBy]
  | cons r rest ih =>
    intro l
    have hstep : insertAllBy readingKey l (r :: rest)
        = insertAllBy readingKey (insertOrIgnoreBy readingKey l r) rest := rfl
    rw [hstep, ih]
    by_cases hmem : l.any (fun y => decide (readingKey y = readingKey r)) = true
    · have hins : insertOrIgnoreBy readingKey l r = l := by
        simp [insertOrIgnoreBy, hmem]
      rw [hins]
      by_cases hk : readingKey r = k
      · obtain ⟨y, hy, hyk⟩ := List.any_eq_true.mp hmem
        have hsome : (l.find? (fun r0 => decide (readingKey r0 = k))).isSome := by
          rw [List.find?_isSome]
          exact ⟨y, hy, by simp at hyk ⊢; rw [hyk, hk]⟩
        obtain ⟨v, hv⟩ := Option.isSome_iff_exists.mp hsome
        rw [hv]
        simp
      · rw [List.find?_cons_of_neg _ (by simp [hk])]
    · have hins : insertOrIgnoreBy readingKey l r = l ++ [r] := by
        simp only [insertOrIgnoreBy, hmem]
        simp
      rw [hins, List.find?_append]
      by_cases hk : readingKey r = k
      · have hnone : l.find? (fun r0 => decide (readingKey r0 = k)) = none := by
          rw [List.find?_eq_none]
          intro x hx
          simp only [decide_eq_true_eq]
          intro hxk
          exact hmem (List.any_eq_true.mpr ⟨x, hx, by simp [hxk, hk]⟩)
        rw [hnone, List.find?_cons_of_pos _ (by simp [hk])]
        simp [List.find?_cons_of_pos, hk]
      · have hone : List.find? (fun r0 => decide (readingKey r0 = k)) [r] = none := by
          simp [List.find?, hk]
        rw [hone, Option.or_none, List.find?_cons_of_neg _ (by simp [hk])]

lemma mem_insertAll {α β : Type} [DecidableEq β] (key : α → β) :
    ∀ (rows l : List α) (x : α), x ∈ insertAllBy key l rows → x ∈ l ∨ x ∈ rows := by
  intro rows
  induction rows with
  | nil => intro l x hx; exact Or.inl hx
  | cons r rest ih =>
    intro l x hx
    have hstep : insertAllBy key l (r :: rest)
        = insertAllBy key (insertOrIgnoreBy key l r) rest := rfl
    rw [hstep] at hx
    rcases ih _ x hx with h | h
    · by_cases hmem : l.any (fun y => decide (key y = key r)) = true
      · rw [show insertOrIgnoreBy key l r = l from by simp [insertOrIgnoreBy, hmem]] at h
        exact Or.inl h
      · rw [show insertOrIgnoreBy key l r = l ++ [r] from by
          simp only [insertOrIgnoreBy, hmem]; simp] at h
        rcases List.mem_append.mp h with h | h
        · exact Or.inl h
        · exact Or.inr (by simp at h; simp [h])
    · exact Or.inr (List.mem_cons_of_mem _ h)

lemma keys_nodup_insertAll {α β : Type} [DecidableEq β] (key : α → β) :
    ∀ (rows l : List α), (l.map key).Nodup → ((insertAllBy key l rows).map key).Nodup := by
  intro rows
  induction rows with
  | nil => intro l h; exact h
  | cons r rest ih =>
    intro l h
    have hstep : insertAllBy key l (r :: rest)
        = insertAllBy key (insertOrIgnoreBy key l r) rest := rfl
    rw [hstep]
    apply ih
    by_cases hmem : l.any (fun y => decide (key y = key r)) = true
    · rw [show insertOrIgnoreBy key l r = l from by simp [insertOrIgnoreBy, hmem]]
      exact h
    · rw [show insertOrIgnoreBy key l r = l ++ [r] from by
        simp only [insertOrIgnoreBy, hmem]; simp]
      rw [List.map_append, List.nodup_append]
      refine ⟨h, by simp, ?_⟩
      intro b hb
      simp only [List.map_cons, List.map_nil, List.mem_singleton]
      intro hbr
      obtain ⟨y, hy, hyk⟩ := List.mem_map.mp hb
      exact hmem (List.any_eq_true.mpr ⟨y, hy, by simp [hyk, hbr]⟩)

/-- Readings of a tick batch: catalog machine, catalog metric, the shared
timestamp. -/
lemma mem_tickRows {machines metrics : List String} {now_ms : Int}
    {valueFor : String → String → Int} {r : Reading}
    (h : r ∈ tickRows machines metrics now_ms valueFor) :
    r.machine_id ∈ machines ∧ r.metric_key ∈ metrics ∧ r.ts_ms = now_ms := by
  obtain ⟨m, hm, hr⟩ := List.mem_flatMap.mp h
  obtain ⟨k, hk, hr2⟩ := List.mem_map.mp hr
  subst hr2
  exact ⟨hm, hk, rfl⟩

/- ----------------------------------------------------------------
   Reachability invariants.
   ---------------------------------------------------------------- -/

lemma Reachable.latest_empty {db : DB} (h : Reachable db) :
    db.latest_readings = [] := by
  induction h with
  | init => rfl
  | tick db ts valueFor _ ih => exact ih

lemma Reachable.machines_eq {db : DB} (h : Reachable db) :
    db.machines = initDB.machines := by
  induction h with
  | init => rfl
  | tick db ts valueFor _ ih => exact ih

lemma Reachable.readings_known {db : DB} (h : Reachable db) :
    ∀ r ∈ db.readings, ∃ m ∈ db.machines, m.machine_id = r.machine_id := by
  induction h with
  | init => intro r hr; exact absurd hr (by simp [initDB, seed, emptyDB, insertAllBy])
  | tick db ts valueFor _ ih =>
    intro r hr
    rcases mem_insertAll readingKey _ _ r hr with h | h
    · exact ih r h
    · obtain ⟨hm, _, _⟩ := mem_tickRows h
      obtain ⟨m, hmem, hmid⟩ := List.mem_map.mp hm
      exact ⟨m, hmem, hmid⟩

lemma Reachable.keys_nodup {db : DB} (h : Reachable db) :
    (db.readings.map readingKey).Nodup := by
  induction h with
  | init => simp [initDB, seed, emptyDB, insertAllBy]
  | tick db ts valueFor _ ih => exact keys_nodup_insertAll readingKey _ _ ih

/- ----------------------------------------------------------------
   Migration lemmas.
   ---------------------------------------------------------------- -/

lemma foldl_applyOne (snapshot : List String) :
    ∀ (l : List MigFile) (st : MigState),
      l.foldl (applyOne snapshot) st
        = { applied := st.applied
              ++ (l.filter (fun f => decide (f.name ∉ snapshot))).map MigFile.name,
            executed := st.executed
              ++ l.filter (fun f => decide (f.name ∉ snapshot)) } := by
  intro l
  induction l with
  | nil => intro st; simp
  | cons f fs ih =>
    intro st
    by_cases h : f.name ∈ snapshot
    · rw [List.foldl_cons, show applyOne snapshot st f = st from by simp [applyOne, h]]
      rw [ih st]
      simp [h]
    · rw [List.foldl_cons,
        show applyOne snapshot st f
            = { applied := st.applied ++ [f.name], executed := st.executed ++ [f] }
          from by simp [applyOne, h]]
      rw [ih]
      simp [h]

lemma apply_migrations_eq (files : List MigFile) (st : MigState) :
    apply_migrations files st
      = { applied := st.applied
            ++ (((files.mergeSort (fun a b => strLe a.name b.name)).filter
                  (fun f => decide (f.name ∉ st.applied))).map MigFile.name),
          executed := st.executed
            ++ ((files.mergeSort (fun a b => strLe a.name b.name)).filter
                  (fun f => decide (f.name ∉ st.applied))) } :=
  foldl_applyOne st.applied _ st

/-- Running apply_migrations changes nothing when every migration file on
disk is already recorded. -/
lemma apply_migrations_noop (files : List MigFile) (st : MigState)
    (h : ∀ f ∈ files.mergeSort (fun a b => strLe a.name b.name), f.name ∈ st.applied) :
    apply_migrations files st = st := by
  have hnil : (files.mergeSort (fun a b => strLe a.name b.name)).filter
      (fun f => decide (f.name ∉ st.applied)) = [] := by
    rw [List.filter_eq_nil_iff]
    intro f hf
    simp [h f hf]
  rw [apply_migrations_eq, hnil]
  cases st
  simp

/- ----------------------------------------------------------------
   History query lemmas.
   ---------------------------------------------------------------- -/

/-- Every pair of distinct positions of the descending sort of the
matching rows has strictly decreasing timestamps, provided the readings
table satisfies its key-uniqueness constraint. -/
lemma sorted_strict_desc (db : DB) (machine_id metric_key : String)
    (start_ms end_ms : Option Int)
    (hU : (db.readings.map readingKey).Nodup) :
    ((historyMatches db machine_id metric_key start_ms end_ms).mergeSort
        tsDescLe).Pairwise (fun a b => b.ts_ms < a.ts_ms) := by
  set M := historyMatches db machine_id metric_key start_ms end_ms with hM
  have hkeys : db.readings.Pairwise (fun a b => readingKey a ≠ readingKey b) :=
    List.pairwise_map.mp hU
  have hMkeys : M.Pairwise (fun a b => readingKey a ≠ readingKey b) :=
    List.Pairwise.sublist (List.filter_sublist _) hkeys
  have hMts : M.Pairwise (fun a b => a.ts_ms ≠ b.ts_ms) := by
    refine hMkeys.imp_of_mem ?_
    intro a b ha hb hne
    obtain ⟨-, hpa⟩ := List.mem_filter.mp ha
    obtain ⟨-, hpb⟩ := List.mem_filter.mp hb
    simp only [Bool.and_eq_true, decide_eq_true_eq] at hpa hpb
    intro hts
    apply hne
    simp only [readingKey, hpa.1.1, hpa.1.2, hpb.1.1, hpb.1.2, hts]
  have hperm := List.mergeSort_perm M tsDescLe
  have hsorted : (M.mergeSort tsDescLe).Pairwise (fun a b => tsDescLe a b = true) :=
    List.sorted_mergeSort
      (by intro a b c h1 h2; simp only [tsDescLe, decide_eq_true_eq] at *; omega)
      (by intro a b; simp only [tsDescLe, Bool.or_eq_true, decide_eq_true_eq]; omega)
      M
  have hts2 : (M.mergeSort tsDescLe).Pairwise (fun a b => a.ts_ms ≠ b.ts_ms) :=
    (hperm.pairwise_iff (fun h => Ne.symm h)).mpr hMts
  exact (hsorted.and hts2).imp (by
    intro a b h
    have h1 : b.ts_ms ≤ a.ts_ms := by
      have := h.1; simpa [tsDescLe] using this
    exact lt_of_le_of_ne h1 (fun he => h.2 he.symm))

/- ----------------------------------------------------------------
   Claim theorems.
   ---------------------------------------------------------------- -/

/-- Claim C6: appending a Reading whose (machine_id, metric_key, ts_ms)
key already exists is a silent no-op (the embedded operation is total, so
no error can arise): the stored row for a key is the first row ever
written with that key — the one already in the store if any, otherwise
the first row of the batch carrying the key — so a later duplicate with a
different value never replaces it, whether it arrives in the same batch
or in a later one. -/
theorem appendReadings_first_write_wins (db : DB) (batch nextBatch : List Reading)
    (k : String × String × Int) :
    lookupReading (appendReadings db batch) k
        = (lookupReading db k).or (batch.find? (fun r => decide (readingKey r = k)))
    ∧ lookupReading (appendReadings (appendReadings db batch) nextBatch) k
        = ((lookupReading db k).or
            (batch.find? (fun r => decide (readingKey r = k)))).or
            (nextBatch.find? (fun r => decide (readingKey r = k))) := by
  have h1 : lookupReading (appendReadings db batch) k
      = (lookupReading db k).or (batch.find? (fun r => decide (readingKey r = k))) :=
    find?_insertAll k batch db.readings
  refine ⟨h1, ?_⟩
  have h2 := find?_insertAll k nextBatch (appendReadings db batch).readings
  rw [show lookupReading (appendReadings (appendReadings db batch) nextBatch) k
      = ((appendReadings db batch).readings.find?
          (fun r => decide (readingKey r = k))).or
          (nextBatch.find? (fun r => decide (readingKey r = k))) from h2]
  rw [show (appendReadings db batch).readings.find? (fun r => decide (readingKey r = k))
      = (lookupReading db k).or (batch.find? (fun r => decide (readingKey r = k))) from h1]

/-- Claim C7: start and stop are idempotent on the two-state controller:
start on a running simulator is a no-op, so two starts from the initial
state leave exactly one worker; stop on a stopped simulator is a no-op
early return; is_running reflects the state reached by each call. -/
theorem simulator_start_stop_idempotent (s t : SimState) (h : t.running = false) :
    start (start s) = start s
    ∧ stop t = t
    ∧ is_running (start s) = true
    ∧ is_running (stop s) = false
    ∧ (start initSim).workers = 1
    ∧ (start (start initSim)).workers = 1 := by
  refine ⟨?_, ?_, ?_, ?_, rfl, rfl⟩
  · by_cases hs : s.running <;> simp [start, hs]
  · simp [stop, h]
  · by_cases hs : s.running <;> simp [start, is_running, hs]
  · by_cases hs : s.running <;> simp [start, stop, is_running, hs]

/-- Witness for C7 at the initial simulator state. -/
theorem simulator_start_stop_idempotent_witness :
    initSim.running = false ∧ stop initSim = initSim :=
  ⟨rfl, (simulator_start_stop_idempotent initSim initSim rfl).2.1⟩

/-- Claim C8: every reading assembled by one tick carries the single
timestamp taken at the start of the tick. -/
theorem tick_single_timestamp (machines metrics : List String) (now_ms : Int)
    (valueFor : String → String → Int) :
    ∀ r ∈ tickRows machines metrics now_ms valueFor, r.ts_ms = now_ms :=
  fun _ hr => (mem_tickRows hr).2.2

/-- Witness for C8 at a concrete one-pair tick. -/
theorem tick_single_timestamp_witness :
    demoReading ∈ tickRows ["m-001"] ["temperature"] 1000 (fun _ _ => 7)
    ∧ demoReading.ts_ms = 1000 :=
  ⟨by decide,
    tick_single_timestamp ["m-001"] ["temperature"] 1000 (fun _ _ => 7)
      demoReading (by decide)⟩

/-- Claim C9: a /history request whose limit lies outside [1, 5000] is
rejected with a validation error, identically for every store state (so
no store query contributes to the response), and an omitted limit
defaults to 500. -/
theorem history_limit_rejected (db db2 : DB) (machine_id metric_key : String)
    (start_ms end_ms : Option Int) (l : Int) (hout : ¬(1 ≤ l ∧ l ≤ 5000)) :
    history_endpoint db machine_id metric_key start_ms end_ms (some l)
        = Except.error (422, "limit out of range")
    ∧ history_endpoint db machine_id metric_key start_ms end_ms (some l)
        = history_endpoint db2 machine_id metric_key start_ms end_ms (some l)
    ∧ validateLimit none = Except.ok 500 := by
  have hv : validateLimit (some l) = Except.error (422, "limit out of range") := by
    simp [validateLimit, hout]
  refine ⟨?_, ?_, rfl⟩ <;> simp [history_endpoint, hv]

/-- Witness for C9 at limit 0. -/
theorem history_limit_rejected_witness :
    ¬((1 : Int) ≤ 0 ∧ (0 : Int) ≤ 5000)
    ∧ history_endpoint initDB "m-001" "temperature" none none (some 0)
        = Except.error (422, "limit out of range") :=
  ⟨by decide,
    (history_limit_rejected initDB demoDB "m-001" "temperature" none none 0
      (by decide)).1⟩

/-- Claim C4 (divergence witness): _run_loop has no exception handler, so
a transient write fault on one tick terminates the worker: on the
schedule success, fault, success only the first tick commits, the loop
crashes, and the third tick never executes — the next tick does not
proceed, contrary to the claim. -/
theorem run_loop_dies_on_write_fault :
    runTicks ["m-001"] ["temperature"] (fun _ _ => 7)
        [(1000, WriteOutcome.success), (2000, WriteOutcome.fault),
          (3000, WriteOutcome.success)] initDB
      = (appendReadings initDB (tickRows ["m-001"] ["temperature"] 1000 (fun _ _ => 7)),
          true, 1) := rfl

/-- Claim C1 (divergence witness): after a committed tick the readings
table holds a row for (m-001, temperature), yet /latest answers from the
latest_readings table, which no write path populates, and returns no
rows instead of the maximum-timestamp reading. -/
theorem get_latest_misses_stored_reading :
    (∃ r ∈ demoDB.readings,
        r.machine_id = "m-001" ∧ r.metric_key = "temperature" ∧ r.ts_ms = 1000)
    ∧ get_latest demoDB "m-001" = Except.ok [] := by
  constructor
  · decide
  · have hl : demoDB.latest_readings = [] := rfl
    have hm : demoDB.machines.any (fun m => decide (m.machine_id = "m-001")) = true := rfl
    simp [get_latest, hm, hl]

/-- Claim C10: for a machine present in the catalog, /latest succeeds
with an empty row list in every reachable store with no readings for
that machine; the 404 branch is reserved for unknown machine ids. -/
theorem get_latest_known_machine_ok (db : DB) (machine_id : String)
    (hdb : Reachable db)
    (hm : db.machines.any (fun m => decide (m.machine_id = machine_id)) = true)
    (_hnr : ∀ r ∈ db.readings, r.machine_id ≠ machine_id) :
    get_latest db machine_id = Except.ok [] := by
  have hl := hdb.latest_empty
  simp [get_latest, hm, hl]

/-- Witness for C10 at the freshly seeded store and machine m-001. -/
theorem get_latest_known_machine_ok_witness :
    initDB.machines.any (fun m => decide (m.machine_id = "m-001")) = true
    ∧ get_latest initDB "m-001" = Except.ok [] :=
  ⟨by decide,
    get_latest_known_machine_ok initDB "m-001" Reachable.init (by decide) (by decide)⟩

/-- Claim C5 counterexample: for the unknown machine id does-not-exist,
/latest does fail with 404, but /history performs no catalog check and
answers 200 with an empty list — it does not fail with a not-found
error, refuting the claim as stated. -/
theorem history_unknown_machine_no_error :
    get_latest initDB "does-not-exist" = Except.error (404, "Unknown machine_id")
    ∧ history_endpoint initDB "does-not-exist" "temperature" none none none
        = Except.ok [] := by
  constructor
  · rfl
  · have hr : initDB.readings = [] := rfl
    simp [history_endpoint, validateLimit, get_history, historyMatches, hr]

/-- Claim C5 as amended: for a machine id absent from the catalog,
/latest fails with the 404 not-found error, while /history (given any
limit FastAPI accepts) succeeds and returns no rows, since every reading
of a reachable store belongs to a catalog machine. -/
theorem unknown_machine_latest_404_history_ok (db : DB)
    (machine_id metric_key : String) (start_ms end_ms : Option Int)
    (limitParam : Option Int) (n : Int) (hdb : Reachable db)
    (hm : db.machines.any (fun m => decide (m.machine_id = machine_id)) = false)
    (hv : validateLimit limitParam = Except.ok n) :
    get_latest db machine_id = Except.error (404, "Unknown machine_id")
    ∧ history_endpoint db machine_id metric_key start_ms end_ms limitParam
        = Except.ok [] := by
  constructor
  · simp [get_latest, hm]
  · have hmt : historyMatches db machine_id metric_key start_ms end_ms = [] := by
      rw [historyMatches, List.filter_eq_nil_iff]
      intro r hr hcontra
      simp only [Bool.and_eq_true, decide_eq_true_eq] at hcontra
      have hrm : r.machine_id = machine_id := by tauto
      obtain ⟨m, hmem, hmid⟩ := hdb.readings_known r hr
      have hany : db.machines.any (fun m0 => decide (m0.machine_id = machine_id)) = true :=
        List.any_eq_true.mpr ⟨m, hmem, by simp [hmid, hrm]⟩
      rw [hm] at hany
      exact Bool.false_ne_true hany
    simp [history_endpoint, hv, get_history, hmt]

/-- Witness for the amended C5 at the seeded store and the machine id
ghost. -/
theorem unknown_machine_latest_404_history_ok_witness :
    initDB.machines.any (fun m => decide (m.machine_id = "ghost")) = false
    ∧ get_latest initDB "ghost" = Except.error (404, "Unknown machine_id")
    ∧ history_endpoint initDB "ghost" "temperature" none none none = Except.ok [] :=
  ⟨by decide,
    unknown_machine_latest_404_history_ok initDB "ghost" "temperature" none none
      none 500 Reachable.init (by decide) rfl⟩

/-- Claim C3: apply_migrations executes exactly the not-yet-recorded
migration files, in strict ascending lexical filename order, records
each executed version, and a second run on the already-migrated state is
an identity no-op. -/
theorem apply_migrations_ordered_idempotent (files : List MigFile) (st : MigState)
    (hnames : (files.map MigFile.name).Nodup) :
    (apply_migrations files st).executed
        = st.executed
          ++ ((files.mergeSort (fun a b => strLe a.name b.name)).filter
                (fun f => decide (f.name ∉ st.applied)))
    ∧ (apply_migrations files st).applied
        = st.applied
          ++ (((files.mergeSort (fun a b => strLe a.name b.name)).filter
                (fun f => decide (f.name ∉ st.applied))).map MigFile.name)
    ∧ ((files.mergeSort (fun a b => strLe a.name b.name)).filter
          (fun f => decide (f.name ∉ st.applied))).Pairwise
        (fun a b => strLt a.name b.name = true)
    ∧ apply_migrations files (apply_migrations files st) = apply_migrations files st := by
  have heq := apply_migrations_eq files st
  refine ⟨by rw [heq], by rw [heq], ?_, ?_⟩
  · have htrans : ∀ a b c : MigFile, strLe a.name b.name = true →
        strLe b.name c.name = true → strLe a.name c.name = true :=
      fun a b c h1 h2 => strLe_trans a.name b.name c.name h1 h2
    have htotal : ∀ a b : MigFile, (strLe a.name b.name || strLe b.name a.name) = true :=
      fun a b => strLe_total a.name b.name
    have hsorted : (files.mergeSort (fun a b => strLe a.name b.name)).Pairwise
        (fun a b => strLe a.name b.name = true) :=
      List.sorted_mergeSort htrans htotal files
    have hperm := List.mergeSort_perm files (fun a b => strLe a.name b.name)
    have hnodup : ((files.mergeSort (fun a b => strLe a.name b.name)).map
        MigFile.name).Nodup :=
      ((hperm.map MigFile.name).nodup_iff).mpr hnames
    have hnn : (files.mergeSort (fun a b => strLe a.name b.name)).Pairwise
        (fun a b => a.name ≠ b.name) :=
      List.pairwise_map.mp hnodup
    have hlt := (hsorted.and hnn).imp
      (fun h => strLt_of_strLe_of_ne h.1 h.2)
    exact List.Pairwise.sublist (List.filter_sublist _) hlt
  · apply apply_migrations_noop
    intro f hf
    rw [heq]
    by_cases hfa : f.name ∈ st.applied
    · exact List.mem_append_left _ hfa
    · refine List.mem_append_right _ ?_
      exact List.mem_map_of_mem _ (List.mem_filter.mpr ⟨hf, by simp [hfa]⟩)

/-- Witness for C3 at two concrete migration files, applied to the empty
bookkeeping state. -/
theorem apply_migrations_ordered_idempotent_witness :
    (([⟨"0002_seed.sql", "B"⟩, ⟨"0001_init.sql", "A"⟩] : List MigFile).map
        MigFile.name).Nodup
    ∧ apply_migrations [⟨"0002_seed.sql", "B"⟩, ⟨"0001_init.sql", "A"⟩]
        (apply_migrations [⟨"0002_seed.sql", "B"⟩, ⟨"0001_init.sql", "A"⟩] ⟨[], []⟩)
      = apply_migrations [⟨"0002_seed.sql", "B"⟩, ⟨"0001_init.sql", "A"⟩] ⟨[], []⟩ :=
  ⟨by decide,
    (apply_migrations_ordered_idempotent
      [⟨"0002_seed.sql", "B"⟩, ⟨"0001_init.sql", "A"⟩] ⟨[], []⟩ (by decide)).2.2.2⟩

/-- Claim C2: under the key-uniqueness constraint of the readings table,
the history query returns min(limit, matches) points, strictly ascending
by ts_ms, each point coming from a reading of the requested pair inside
the inclusive bounds, and every matching reading left out of the
response is strictly older than every returned point — so when more than
limit readings match, the response is exactly the limit most recent,
presented chronologically. -/
theorem get_history_spec (db : DB) (machine_id metric_key : String)
    (start_ms end_ms : Option Int) (limit : Nat)
    (hU : (db.readings.map readingKey).Nodup) :
    (get_history db machine_id metric_key start_ms end_ms limit).length
        = min limit (historyMatches db machine_id metric_key start_ms end_ms).length
    ∧ (get_history db machine_id metric_key start_ms end_ms limit).Pairwise
        (fun p q => p.ts_ms < q.ts_ms)
    ∧ (∀ p ∈ get_history db machine_id metric_key start_ms end_ms limit,
        ∃ r ∈ historyMatches db machine_id metric_key start_ms end_ms,
          p = { ts_ms := r.ts_ms, value := r.value })
    ∧ (∀ r ∈ historyMatches db machine_id metric_key start_ms end_ms,
        r.ts_ms ∉ (get_history db machine_id metric_key start_ms end_ms limit).map
          ReadingPoint.ts_ms →
        ∀ p ∈ get_history db machine_id metric_key start_ms end_ms limit,
          r.ts_ms < p.ts_ms) := by
  have hstrict := sorted_strict_desc db machine_id metric_key start_ms end_ms hU
  set M := historyMatches db machine_id metric_key start_ms end_ms with hMdef
  set D := M.mergeSort tsDescLe with hDdef
  have hperm : D.Perm M := List.mergeSort_perm M tsDescLe
  have hsplit : D.take limit ++ D.drop limit = D := List.take_append_drop limit D
  have hcross : ∀ a ∈ D.take limit, ∀ b ∈ D.drop limit, b.ts_ms < a.ts_ms := by
    have hp := hstrict
    rw [← hsplit] at hp
    exact (List.pairwise_append.mp hp).2.2
  have hR : get_history db machine_id metric_key start_ms end_ms limit
      = ((D.take limit).reverse).map
          (fun r => { ts_ms := r.ts_ms, value := r.value }) := rfl
  refine ⟨?_, ?_, ?_, ?_⟩
  · rw [hR]
    simp only [List.length_map, List.length_reverse, List.length_take]
    rw [hperm.length_eq]
  · rw [hR, List.pairwise_map, List.pairwise_reverse]
    exact List.Pairwise.sublist (List.take_sublist _ _) hstrict
  · rw [hR]
    intro p hp
    obtain ⟨r, hr, hpr⟩ := List.mem_map.mp hp
    have hrD : r ∈ D := (List.take_sublist _ _).subset (List.mem_reverse.mp hr)
    exact ⟨r, hperm.subset hrD, hpr.symm⟩
  · intro r hrM hnot p hp
    rw [hR] at hp hnot
    obtain ⟨a, ha, hpa⟩ := List.mem_map.mp hp
    have haT : a ∈ D.take limit := List.mem_reverse.mp ha
    have hrD : r ∈ D := hperm.symm.subset hrM
    have hrTD : r ∈ D.take limit ++ D.drop limit := by rw [hsplit]; exact hrD
    rcases List.mem_append.mp hrTD with hT | hDr
    · exact absurd
        (List.mem_map.mpr
          ⟨({ ts_ms := r.ts_ms, value := r.value } : ReadingPoint),
            List.mem_map.mpr ⟨r, List.mem_reverse.mpr hT, rfl⟩, rfl⟩)
        hnot
    · subst hpa
      exact hcross a haT r hDr

/-- Witness for C2 on a two-tick store, requesting the single most
recent point of the (m-001, temperature) pair. -/
theorem get_history_spec_witness :
    (histDB.readings.map readingKey).Nodup
    ∧ (get_history histDB "m-001" "temperature" none none 1).length
        = min 1 (historyMatches histDB "m-001" "temperature" none none).length :=
  ⟨by decide, (get_history_spec histDB "m-001" "temperature" none none 1 (by decide)).1⟩

end Telemetry
